import Mathlib

/-!
Verification of the custom FFT evaluator example
(`examples/dispatch/fft.cpp` of Sourcery VSIPL++).

The file embeds, as executable Lean definitions:
  * the backend class `example::Fft_1024` — its stored scale factor and
    its `in_place`, `out_of_place` and `query_layout` methods;
  * the `vsip_csl::dispatcher::Evaluator` specialization — `ct_valid`,
    `rt_valid` and `exec`;
  * the dispatcher's candidate-selection loop, which lives in the VSIPL++
    library rather than in this example file and is therefore modelled
    from the specification.

`complex<float>` values are embedded as pairs of rationals: every value
the example manipulates (unit inputs, a scale of `1.0`) is represented
exactly, and the claims under verification are about which buffer cells
are read and written and which products are stored, not about rounding.
Strides and lengths (`stride_type`, `length_type`, `index_type`) are
embedded as `Nat`; the claims only concern strides `>= 1`.
-/

namespace Vsipl

/-- Embedding of `std::complex<float>`: a pair of exact scalars. -/
structure Cf where
  re : ℚ
  im : ℚ
deriving DecidableEq, Repr

/-- `complex<float> * float` in C++ scales both components. -/
def Cf.smul (c : Cf) (s : ℚ) : Cf := ⟨c.re * s, c.im * s⟩

/-- The complex value `1.` used to fill the example's input vectors. -/
def Cf.one : Cf := ⟨1, 0⟩

/-- Embedding of `vsip::Domain<1>`: the only observation the example makes
of a one-dimensional domain is its `size()`. -/
structure Domain1 where
  size : ℕ
deriving DecidableEq, Repr

/-- The packing alternatives of the layout descriptor
(spec: `packing: dense | strided`). -/
inductive Packing where
  | dense
  | strided
deriving DecidableEq, Repr

/-- The complex storage formats of the layout descriptor
(spec: `storage_format: interleaved-complex | split-complex`). -/
inductive Storage_format where
  | interleaved_complex
  | split_complex
deriving DecidableEq, Repr

/-- Modelled from the spec: `vsip_csl::dda::Rt_layout<1>` is a library
type whose definition is not part of this example file.  The spec's
LayoutDescriptor records `packing` and `storage_format`; the library
object carries further fields (dimension order, alignment, ...) that the
example never touches, abstracted here as a field `rest` of an arbitrary
type. -/
structure Rt_layout (α : Type) where
  packing : Packing
  storage_format : Storage_format
  rest : α
deriving DecidableEq, Repr

/-- Embedding of `example::Fft_1024`: the backend's only persistent state
is the scale factor stored by its constructor. -/
structure Fft_1024 where
  scale_ : ℚ
deriving DecidableEq, Repr

/-- The constructor `Fft_1024(Domain<1> const &dom, float scale)`:
`dom` is `ATTRIBUTE_UNUSED`; only `scale` is stored. -/
def Fft_1024.construct (_dom : Domain1) (scale : ℚ) : Fft_1024 :=
  ⟨scale⟩

/-- The body of the `in_place` loop,

    for (index_type i = 0; i < length; i++)
      data[i * stride] = data[i * stride] * scale_;

with the iteration counter `i` explicit and the recursion structured on
the number `n = length - i` of remaining iterations.  A read of
`data[i * stride]` past the end of the buffer — undefined behaviour in
the C++ — is embedded as `none`. -/
def Fft_1024.in_place_go (scale : ℚ) (stride : ℕ) :
    ℕ → ℕ → List Cf → Option (List Cf)
  | _, 0, data => some data
  | i, n + 1, data =>
      match data[i * stride]? with
      | none => none
      | some v =>
          Fft_1024.in_place_go scale stride (i + 1) n
            (data.set (i * stride) (v.smul scale))

/-- `Fft_1024::in_place(data, stride, length)`. -/
def Fft_1024.in_place (b : Fft_1024) (data : List Cf)
    (stride length : ℕ) : Option (List Cf) :=
  Fft_1024.in_place_go b.scale_ stride 0 length data

/-- The body of the `out_of_place` loop,

    for (index_type i = 0; i < length; i++)
      data_out[i * stride_out] = data_in[i * stride_in] * scale_;

again with explicit counter `i` and recursion on the remaining iteration
count.  The input buffer is threaded through unchanged — the loop never
assigns to `data_in` — and an out-of-bounds read or write is embedded as
`none`. -/
def Fft_1024.out_of_place_go (scale : ℚ) (stride_in stride_out : ℕ) :
    ℕ → ℕ → List Cf → List Cf → Option (List Cf × List Cf)
  | _, 0, data_in, data_out => some (data_in, data_out)
  | i, n + 1, data_in, data_out =>
      match data_in[i * stride_in]? with
      | none => none
      | some v =>
          if i * stride_out < data_out.length then
            Fft_1024.out_of_place_go scale stride_in stride_out (i + 1) n
              data_in (data_out.set (i * stride_out) (v.smul scale))
          else none

/-- `Fft_1024::out_of_place(data_in, stride_in, data_out, stride_out,
length)`; the result pairs the final contents of both buffers. -/
def Fft_1024.out_of_place (b : Fft_1024) (data_in : List Cf)
    (stride_in : ℕ) (data_out : List Cf) (stride_out length : ℕ) :
    Option (List Cf × List Cf) :=
  Fft_1024.out_of_place_go b.scale_ stride_in stride_out 0 length
    data_in data_out

/-- The in-place overload `query_layout(rtl_inout)`:

    rtl_inout.packing = dense;
    rtl_inout.storage_format = interleaved_complex;    -/
def Fft_1024.query_layout1 (_b : Fft_1024) (rtl_inout : Rt_layout α) :
    Rt_layout α :=
  { rtl_inout with
      packing := Packing.dense
      storage_format := Storage_format.interleaved_complex }

/-- The out-of-place overload `query_layout(rtl_in, rtl_out)`:

    rtl_in.packing = rtl_out.packing = dense;
    rtl_in.storage_format = rtl_out.storage_format = interleaved_complex;  -/
def Fft_1024.query_layout2 (_b : Fft_1024)
    (rtl_in : Rt_layout α) (rtl_out : Rt_layout β) :
    Rt_layout α × Rt_layout β :=
  ({ rtl_in with
       packing := Packing.dense
       storage_format := Storage_format.interleaved_complex },
   { rtl_out with
       packing := Packing.dense
       storage_format := Storage_format.interleaved_complex })

namespace Evaluator

/-- `static bool const ct_valid = true;` of the `Evaluator`
specialization. -/
def ct_valid : Bool := true

/-- `static bool rt_valid(Domain<1> const &dom, float)
{ return dom.size() == 1024; }` — the `float` argument is unnamed. -/
def rt_valid (dom : Domain1) (_scale : ℚ) : Bool :=
  dom.size == 1024

/-- The backends that dispatch can construct: the example's `Fft_1024`,
or the library's own (generic) FFT backend, held abstract with the
construction arguments it receives. -/
inductive Backend where
  | fft1024 (b : Fft_1024)
  | system (dom : Domain1) (scale : ℚ)
deriving DecidableEq, Repr

/-- `Evaluator::exec(dom, scale)` constructs `new example::Fft_1024(dom,
scale)` and returns sole ownership of it. -/
def exec (dom : Domain1) (scale : ℚ) : Backend :=
  Backend.fft1024 (Fft_1024.construct dom scale)

/-- Modelled from the spec: a registry entry — static-validity predicate,
runtime-validity predicate, and construction function.  The dispatcher
itself is VSIPL++ library code, not part of this example file. -/
structure Candidate where
  ct_valid : Bool
  rt_valid : Domain1 → ℚ → Bool
  exec : Domain1 → ℚ → Backend

/-- The candidate contributed by the example's `Evaluator`
specialization (`be::user`). -/
def userCandidate : Candidate :=
  ⟨ct_valid, rt_valid, exec⟩

/-- Modelled from the spec: the library's generic catch-all candidate —
"static-valid always, runtime-valid always"; its construction function is
held abstract as `Backend.system`. -/
def genericCandidate : Candidate :=
  ⟨true, fun _ _ => true, Backend.system⟩

/-- Modelled from the spec: the registry for this operation signature —
"one generic candidate ... and one specialized candidate ...,
specialized registered first". -/
def registry : List Candidate :=
  [userCandidate, genericCandidate]

/-- Modelled from the spec: the dispatcher walks the candidates in
order, skips a candidate whose static-validity predicate is false
without invoking its runtime predicate, skips one whose runtime
predicate is false, and on the first candidate whose runtime predicate
is true invokes its construction function with the construction
arguments and stops; `none` embeds `DispatchError::NoMatchingBackend`. -/
def select : List Candidate → Domain1 → ℚ → Option Backend
  | [], _, _ => none
  | c :: cs, dom, scale =>
      if c.ct_valid then
        if c.rt_valid dom scale then some (c.exec dom scale)
        else select cs dom scale
      else select cs dom scale

end Evaluator

end Vsipl

namespace Vsipl

/-- Characterization of the `in_place` loop from iteration `i` with `n`
iterations remaining: when it succeeds, the cells at indices `k * stride`
for `i ≤ k < i + n` hold their old value scaled, every other cell is
unchanged, and the length is preserved. -/
theorem in_place_go_spec (scale : ℚ) (stride : ℕ) (hs : 1 ≤ stride) :
    ∀ (n i : ℕ) (data data' : List Cf),
      Fft_1024.in_place_go scale stride i n data = some data' →
      data'.length = data.length ∧
      (∀ k, i ≤ k → k < i + n →
        data'[k * stride]? =
          (data[k * stride]?).map (fun v => v.smul scale)) ∧
      (∀ j : ℕ, (∀ k, i ≤ k → k < i + n → j ≠ k * stride) →
        data'[j]? = data[j]?) := by
  intro n
  induction n with
  | zero =>
      intro i data data' h
      simp only [Fft_1024.in_place_go, Option.some.injEq] at h
      subst h
      exact ⟨rfl, fun k hk hk' => absurd hk' (by omega), fun j _ => rfl⟩
  | succ n ih =>
      intro i data data' h
      cases hget : data[i * stride]? with
      | none => simp [Fft_1024.in_place_go, hget] at h
      | some v =>
          simp only [Fft_1024.in_place_go, hget] at h
          obtain ⟨hlen, htouch, hframe⟩ :=
            ih (i + 1) (data.set (i * stride) (v.smul scale)) data' h
          have hne : ∀ a b : ℕ, a < b → a * stride ≠ b * stride := by
            intro a b hab heq
            exact absurd (Nat.eq_of_mul_eq_mul_right hs heq) (by omega)
          have hib : i * stride < data.length := by
            by_contra hc
            rw [List.getElem?_eq_none (by omega)] at hget
            exact Option.noConfusion hget
          refine ⟨by simpa using hlen, ?_, ?_⟩
          · intro k hk hk'
            rcases Nat.eq_or_lt_of_le hk with heq | hlt
            · subst heq
              rw [hframe (i * stride)
                    (fun p hp hp' => hne i p (by omega)),
                List.getElem?_set_self hib, hget]
              rfl
            · rw [htouch k hlt (by omega),
                List.getElem?_set_ne (hne i k hlt)]
          · intro j hj
            have hji : i * stride ≠ j :=
              fun heq => hj i (Nat.le_refl i) (by omega) heq.symm
            rw [hframe j (fun p hp hp' => hj p (by omega) (by omega)),
              List.getElem?_set_ne hji]

/-- The `in_place` loop succeeds whenever every access it performs is
within the buffer: no out-of-bounds branch is taken. -/
theorem in_place_go_total (scale : ℚ) (stride : ℕ) :
    ∀ (n i : ℕ) (data : List Cf),
      (∀ k, i ≤ k → k < i + n → k * stride < data.length) →
      (Fft_1024.in_place_go scale stride i n data).isSome = true := by
  intro n
  induction n with
  | zero => intro i data _; rfl
  | succ n ih =>
      intro i data hb
      have hib : i * stride < data.length := hb i (Nat.le_refl i) (by omega)
      cases hget : data[i * stride]? with
      | none => exact absurd (List.getElem?_eq_none_iff.mp hget) (by omega)
      | some v =>
          simp only [Fft_1024.in_place_go, hget]
          exact ih (i + 1) _ (fun k h1 h2 => by
            simpa using hb k (by omega) (by omega))

/-- The `out_of_place` loop threads the input buffer through unchanged:
the loop body never assigns to `data_in`. -/
theorem out_of_place_go_fst (scale : ℚ) (stride_in stride_out : ℕ) :
    ∀ (n i : ℕ) (data_in data_out din' dout' : List Cf),
      Fft_1024.out_of_place_go scale stride_in stride_out i n
          data_in data_out = some (din', dout') →
      din' = data_in := by
  intro n
  induction n with
  | zero =>
      intro i din dout din' dout' h
      simp only [Fft_1024.out_of_place_go, Option.some.injEq,
        Prod.mk.injEq] at h
      exact h.1.symm
  | succ n ih =>
      intro i din dout din' dout' h
      cases hget : din[i * stride_in]? with
      | none => simp [Fft_1024.out_of_place_go, hget] at h
      | some v =>
          simp only [Fft_1024.out_of_place_go, hget] at h
          by_cases hwb : i * stride_out < dout.length
          · rw [if_pos hwb] at h
            exact ih (i + 1) din _ din' dout' h
          · rw [if_neg hwb] at h
            exact Option.noConfusion h

/-- Characterization of the `out_of_place` loop from iteration `i` with
`n` iterations remaining: when it succeeds, the output cells at indices
`k * stride_out` for `i ≤ k < i + n` receive the scaled input cell
`k * stride_in`, every other output cell is unchanged, the output length
is preserved, and the input buffer is returned unchanged. -/
theorem out_of_place_go_spec (scale : ℚ) (stride_in stride_out : ℕ)
    (hso : 1 ≤ stride_out) :
    ∀ (n i : ℕ) (data_in data_out din' dout' : List Cf),
      Fft_1024.out_of_place_go scale stride_in stride_out i n
          data_in data_out = some (din', dout') →
      din' = data_in ∧
      dout'.length = data_out.length ∧
      (∀ k, i ≤ k → k < i + n →
        dout'[k * stride_out]? =
          (data_in[k * stride_in]?).map (fun v => v.smul scale)) ∧
      (∀ j : ℕ, (∀ k, i ≤ k → k < i + n → j ≠ k * stride_out) →
        dout'[j]? = data_out[j]?) := by
  intro n
  induction n with
  | zero =>
      intro i din dout din' dout' h
      simp only [Fft_1024.out_of_place_go, Option.some.injEq,
        Prod.mk.injEq] at h
      obtain ⟨h1, h2⟩ := h
      subst h1; subst h2
      exact ⟨rfl, rfl, fun k hk hk' => absurd hk' (by omega), fun j _ => rfl⟩
  | succ n ih =>
      intro i din dout din' dout' h
      cases hget : din[i * stride_in]? with
      | none => simp [Fft_1024.out_of_place_go, hget] at h
      | some v =>
          simp only [Fft_1024.out_of_place_go, hget] at h
          by_cases hwb : i * stride_out < dout.length
          · rw [if_pos hwb] at h
            obtain ⟨hfst, hlen, htouch, hframe⟩ :=
              ih (i + 1) din (dout.set (i * stride_out) (v.smul scale))
                din' dout' h
            have hne : ∀ a b : ℕ, a < b →
                a * stride_out ≠ b * stride_out := by
              intro a b hab heq
              exact absurd (Nat.eq_of_mul_eq_mul_right hso heq) (by omega)
            refine ⟨hfst, by simpa using hlen, ?_, ?_⟩
            · intro k hk hk'
              rcases Nat.eq_or_lt_of_le hk with heq | hlt
              · subst heq
                rw [hframe (i * stride_out)
                      (fun p hp hp' => hne i p (by omega)),
                  List.getElem?_set_self hwb, hget]
                rfl
              · exact htouch k hlt (by omega)
            · intro j hj
              have hji : i * stride_out ≠ j :=
                fun heq => hj i (Nat.le_refl i) (by omega) heq.symm
              rw [hframe j (fun p hp hp' => hj p (by omega) (by omega)),
                List.getElem?_set_ne hji]
          · rw [if_neg hwb] at h
            exact Option.noConfusion h

/-- The `out_of_place` loop succeeds whenever every read of the input
buffer and every write of the output buffer is within bounds. -/
theorem out_of_place_go_total (scale : ℚ) (stride_in stride_out : ℕ) :
    ∀ (n i : ℕ) (data_in data_out : List Cf),
      (∀ k, i ≤ k → k < i + n →
        k * stride_in < data_in.length ∧
          k * stride_out < data_out.length) →
      (Fft_1024.out_of_place_go scale stride_in stride_out i n
          data_in data_out).isSome = true := by
  intro n
  induction n with
  | zero => intro i din dout _; rfl
  | succ n ih =>
      intro i din dout hb
      obtain ⟨hibi, hibo⟩ := hb i (Nat.le_refl i) (by omega)
      cases hget : din[i * stride_in]? with
      | none => exact absurd (List.getElem?_eq_none_iff.mp hget) (by omega)
      | some v =>
          simp only [Fft_1024.out_of_place_go, hget, if_pos hibo]
          exact ih (i + 1) din _ (fun k h1 h2 => by
            simpa using hb k (by omega) (by omega))

/-- C1: the specialized candidate's `ct_valid` is `true` (for every
signature it is registered for — the `Evaluator` specialization defines a
single `ct_valid` constant shared by all its instantiations), and
`rt_valid dom scale` is `true` exactly when `dom.size = 1024`, for every
domain and every scale. -/
theorem evaluator_validity :
    Evaluator.ct_valid = true ∧
      ∀ (dom : Domain1) (scale : ℚ),
        Evaluator.rt_valid dom scale = true ↔ dom.size = 1024 := by
  refine ⟨rfl, fun dom scale => ?_⟩
  simp [Evaluator.rt_valid]

/-- C2: dispatch at requested length 1024 selects the specialized
`Fft_1024` backend (its constructor runs, storing the scale), while at
requested length 2048 the specialized candidate fails `rt_valid` and the
generic system backend is selected instead — for every scale. -/
theorem dispatch_selects (scale : ℚ) :
    Evaluator.select Evaluator.registry ⟨1024⟩ scale =
        some (Evaluator.Backend.fft1024 (Fft_1024.construct ⟨1024⟩ scale)) ∧
      Evaluator.select Evaluator.registry ⟨2048⟩ scale =
        some (Evaluator.Backend.system ⟨2048⟩ scale) := by
  constructor <;>
    simp [Evaluator.select, Evaluator.registry, Evaluator.userCandidate,
      Evaluator.genericCandidate, Evaluator.ct_valid, Evaluator.rt_valid,
      Evaluator.exec]

/-- C3: with `stride ≥ 1`, a successful `in_place` call updates exactly
the cells at indices `i * stride` for `0 ≤ i < length`, setting each to
its old value multiplied by the stored scale factor (each such cell is
read and written once — the indices are pairwise distinct), leaves every
other cell unchanged, and preserves the buffer length. -/
theorem in_place_spec (b : Fft_1024) (data data' : List Cf)
    (stride length : ℕ) (hs : 1 ≤ stride)
    (h : b.in_place data stride length = some data') :
    data'.length = data.length ∧
    (∀ i, i < length →
      data'[i * stride]? =
        (data[i * stride]?).map (fun v => v.smul b.scale_)) ∧
    (∀ j : ℕ, (∀ i, i < length → j ≠ i * stride) →
      data'[j]? = data[j]?) := by
  obtain ⟨h1, h2, h3⟩ :=
    in_place_go_spec b.scale_ stride hs length 0 data data' h
  exact ⟨h1, fun i hi => h2 i (Nat.zero_le i) (by omega),
    fun j hj => h3 j (fun k _ hk => hj k (by omega))⟩

/-- Witness for C3: a buffer of three cells, stride 2, length 2 — the
cells at indices 0 and 2 are doubled, the cell at index 1 is untouched. -/
theorem in_place_spec_witness :
    (1 : ℕ) ≤ 2 ∧
    (Fft_1024.mk 2).in_place [⟨1, 0⟩, ⟨2, 0⟩, ⟨3, 0⟩] 2 2 =
      some [⟨2, 0⟩, ⟨2, 0⟩, ⟨6, 0⟩] ∧
    (([⟨2, 0⟩, ⟨2, 0⟩, ⟨6, 0⟩] : List Cf).length =
        ([⟨1, 0⟩, ⟨2, 0⟩, ⟨3, 0⟩] : List Cf).length ∧
      (∀ i, i < 2 →
        ([⟨2, 0⟩, ⟨2, 0⟩, ⟨6, 0⟩] : List Cf)[i * 2]? =
          (([⟨1, 0⟩, ⟨2, 0⟩, ⟨3, 0⟩] : List Cf)[i * 2]?).map
            (fun v => v.smul (Fft_1024.mk 2).scale_)) ∧
      (∀ j : ℕ, (∀ i, i < 2 → j ≠ i * 2) →
        ([⟨2, 0⟩, ⟨2, 0⟩, ⟨6, 0⟩] : List Cf)[j]? =
          ([⟨1, 0⟩, ⟨2, 0⟩, ⟨3, 0⟩] : List Cf)[j]?)) :=
  ⟨by decide,
    by norm_num [Fft_1024.in_place, Fft_1024.in_place_go, Cf.smul],
    in_place_spec (Fft_1024.mk 2) [⟨1, 0⟩, ⟨2, 0⟩, ⟨3, 0⟩]
      [⟨2, 0⟩, ⟨2, 0⟩, ⟨6, 0⟩] 2 2 (by decide)
      (by norm_num [Fft_1024.in_place, Fft_1024.in_place_go, Cf.smul])⟩

/-- C4: with both strides `≥ 1`, a successful `out_of_place` call
writes, for every `i < length`, the input cell `i * stride_in` scaled by
the stored factor into output cell `i * stride_out`, writes nothing else
into the output buffer, and preserves the output length. -/
theorem out_of_place_spec (b : Fft_1024)
    (data_in data_out din' dout' : List Cf)
    (stride_in stride_out length : ℕ)
    (_hsi : 1 ≤ stride_in) (hso : 1 ≤ stride_out)
    (h : b.out_of_place data_in stride_in data_out stride_out length =
      some (din', dout')) :
    dout'.length = data_out.length ∧
    (∀ i, i < length →
      dout'[i * stride_out]? =
        (data_in[i * stride_in]?).map (fun v => v.smul b.scale_)) ∧
    (∀ j : ℕ, (∀ i, i < length → j ≠ i * stride_out) →
      dout'[j]? = data_out[j]?) := by
  obtain ⟨_, h1, h2, h3⟩ :=
    out_of_place_go_spec b.scale_ stride_in stride_out hso length 0
      data_in data_out din' dout' h
  exact ⟨h1, fun i hi => h2 i (Nat.zero_le i) (by omega),
    fun j hj => h3 j (fun k _ hk => hj k (by omega))⟩

/-- Witness for C4: input stride 2, output stride 1, length 2 — output
cells 0 and 1 receive the doubled input cells 0 and 2, output cell 2
keeps its old value. -/
theorem out_of_place_spec_witness :
    (1 : ℕ) ≤ 2 ∧ (1 : ℕ) ≤ 1 ∧
    (Fft_1024.mk 2).out_of_place [⟨1, 0⟩, ⟨2, 0⟩, ⟨3, 0⟩] 2
        [⟨5, 0⟩, ⟨5, 0⟩, ⟨5, 0⟩] 1 2 =
      some ([⟨1, 0⟩, ⟨2, 0⟩, ⟨3, 0⟩], [⟨2, 0⟩, ⟨6, 0⟩, ⟨5, 0⟩]) ∧
    (([⟨2, 0⟩, ⟨6, 0⟩, ⟨5, 0⟩] : List Cf).length =
        ([⟨5, 0⟩, ⟨5, 0⟩, ⟨5, 0⟩] : List Cf).length ∧
      (∀ i, i < 2 →
        ([⟨2, 0⟩, ⟨6, 0⟩, ⟨5, 0⟩] : List Cf)[i * 1]? =
          (([⟨1, 0⟩, ⟨2, 0⟩, ⟨3, 0⟩] : List Cf)[i * 2]?).map
            (fun v => v.smul (Fft_1024.mk 2).scale_)) ∧
      (∀ j : ℕ, (∀ i, i < 2 → j ≠ i * 1) →
        ([⟨2, 0⟩, ⟨6, 0⟩, ⟨5, 0⟩] : List Cf)[j]? =
          ([⟨5, 0⟩, ⟨5, 0⟩, ⟨5, 0⟩] : List Cf)[j]?)) :=
  ⟨by decide, by decide,
    by norm_num [Fft_1024.out_of_place, Fft_1024.out_of_place_go, Cf.smul],
    out_of_place_spec (Fft_1024.mk 2) [⟨1, 0⟩, ⟨2, 0⟩, ⟨3, 0⟩]
      [⟨5, 0⟩, ⟨5, 0⟩, ⟨5, 0⟩] [⟨1, 0⟩, ⟨2, 0⟩, ⟨3, 0⟩]
      [⟨2, 0⟩, ⟨6, 0⟩, ⟨5, 0⟩] 2 1 2 (by decide) (by decide)
      (by norm_num [Fft_1024.out_of_place, Fft_1024.out_of_place_go,
        Cf.smul])⟩

/-- C5: `out_of_place` never writes the input buffer — whenever the call
succeeds, the input buffer it returns is exactly the one passed in. -/
theorem out_of_place_preserves_input (b : Fft_1024)
    (data_in data_out din' dout' : List Cf)
    (stride_in stride_out length : ℕ)
    (h : b.out_of_place data_in stride_in data_out stride_out length =
      some (din', dout')) :
    din' = data_in :=
  out_of_place_go_fst b.scale_ stride_in stride_out length 0
    data_in data_out din' dout' h

/-- Witness for C5: after a concrete out-of-place call the input buffer
holds its original values. -/
theorem out_of_place_preserves_input_witness :
    (Fft_1024.mk 3).out_of_place [⟨1, 0⟩, ⟨2, 0⟩] 1 [⟨0, 0⟩, ⟨0, 0⟩] 1 2 =
      some ([⟨1, 0⟩, ⟨2, 0⟩], [⟨3, 0⟩, ⟨6, 0⟩]) ∧
    ([⟨1, 0⟩, ⟨2, 0⟩] : List Cf) = [⟨1, 0⟩, ⟨2, 0⟩] :=
  ⟨by norm_num [Fft_1024.out_of_place, Fft_1024.out_of_place_go, Cf.smul],
    out_of_place_preserves_input (Fft_1024.mk 3) [⟨1, 0⟩, ⟨2, 0⟩]
      [⟨0, 0⟩, ⟨0, 0⟩] [⟨1, 0⟩, ⟨2, 0⟩] [⟨3, 0⟩, ⟨6, 0⟩] 1 1 2
      (by norm_num [Fft_1024.out_of_place, Fft_1024.out_of_place_go,
        Cf.smul])⟩

/-- C6: both `query_layout` overloads are idempotent — applying the
negotiation twice to the same layout object(s) yields the same required
layout as applying it once. -/
theorem query_layout_idempotent (b : Fft_1024)
    (rtl : Rt_layout α) (rtl_in : Rt_layout α) (rtl_out : Rt_layout β) :
    b.query_layout1 (b.query_layout1 rtl) = b.query_layout1 rtl ∧
      (b.query_layout2 (b.query_layout2 rtl_in rtl_out).1
          (b.query_layout2 rtl_in rtl_out).2) =
        b.query_layout2 rtl_in rtl_out := by
  constructor <;> rfl

/-- C9: the required layout does not depend on the proposal — each
overload sets `packing` to dense and `storage_format` to
interleaved-complex and leaves every other field unchanged. -/
theorem query_layout_result (b : Fft_1024)
    (rtl : Rt_layout α) (rtl_in : Rt_layout α) (rtl_out : Rt_layout β) :
    b.query_layout1 rtl =
        ⟨Packing.dense, Storage_format.interleaved_complex, rtl.rest⟩ ∧
      b.query_layout2 rtl_in rtl_out =
        (⟨Packing.dense, Storage_format.interleaved_complex, rtl_in.rest⟩,
         ⟨Packing.dense, Storage_format.interleaved_complex, rtl_out.rest⟩) := by
  constructor <;> rfl

/-- C7: when the requested length is 1024, dispatch selects the
specialized candidate, invoking `exec` with the caller's construction
arguments unchanged, and the `Fft_1024` backend that `exec` newly
constructs stores exactly the caller's scale argument. -/
theorem exec_constructs_backend (dom : Domain1) (scale : ℚ)
    (h : dom.size = 1024) :
    Evaluator.select Evaluator.registry dom scale =
        some (Evaluator.exec dom scale) ∧
      Evaluator.exec dom scale =
        Evaluator.Backend.fft1024 (Fft_1024.construct dom scale) ∧
      (Fft_1024.construct dom scale).scale_ = scale := by
  refine ⟨?_, rfl, rfl⟩
  simp [Evaluator.select, Evaluator.registry, Evaluator.userCandidate,
    Evaluator.ct_valid, Evaluator.rt_valid, Evaluator.exec, h]

/-- Witness for C7: at domain size 1024 and scale 2, dispatch returns
the backend constructed by `exec`, which stores scale 2. -/
theorem exec_constructs_backend_witness :
    (Domain1.mk 1024).size = 1024 ∧
    (Evaluator.select Evaluator.registry ⟨1024⟩ 2 =
        some (Evaluator.exec ⟨1024⟩ 2) ∧
      Evaluator.exec ⟨1024⟩ 2 =
        Evaluator.Backend.fft1024 (Fft_1024.construct ⟨1024⟩ 2) ∧
      (Fft_1024.construct ⟨1024⟩ 2).scale_ = 2) :=
  ⟨rfl, exec_constructs_backend ⟨1024⟩ 2 rfl⟩

/-- C8: a backend constructed with scale 1 leaves a buffer of 1024
unit-valued elements exactly unchanged under the in-place transform. -/
theorem in_place_unit_scale_identity :
    (Fft_1024.construct ⟨1024⟩ 1).in_place
        (List.replicate 1024 Cf.one) 1 1024 =
      some (List.replicate 1024 Cf.one) := by
  have htot :=
    in_place_go_total 1 1 1024 0 (List.replicate 1024 Cf.one)
      (fun k hk hk' => by simp only [List.length_replicate]; omega)
  obtain ⟨data', hd'⟩ := Option.isSome_iff_exists.mp htot
  obtain ⟨hlen, htouch, hframe⟩ :=
    in_place_go_spec 1 1 (Nat.le_refl 1) 1024 0
      (List.replicate 1024 Cf.one) data' hd'
  have hid : data' = List.replicate 1024 Cf.one := by
    apply List.ext_getElem?
    intro j
    by_cases hj : j < 1024
    · have ht := htouch j (Nat.zero_le j) (by omega)
      rw [Nat.mul_one] at ht
      rw [ht, List.getElem?_replicate_of_lt hj]
      simp [Cf.smul, Cf.one]
    · exact hframe j (fun k hk hk' => by omega)
  show Fft_1024.in_place_go 1 1 0 1024 (List.replicate 1024 Cf.one) =
    some (List.replicate 1024 Cf.one)
  rw [hd', hid]

/-- C10: with strides `≥ 1` and each buffer holding at least
`(length - 1) * stride + 1` elements for its own stride (or a zero
length), every access `data[i * stride]` of `in_place` and
`out_of_place` for `i < length` is within bounds: the out-of-bounds
(`none`) branch of the total embedding is never taken and both calls
succeed. -/
theorem transform_accesses_in_bounds (b : Fft_1024)
    (data data_in data_out : List Cf)
    (stride stride_in stride_out length length' : ℕ)
    (_hs : 1 ≤ stride) (_hsi : 1 ≤ stride_in) (_hso : 1 ≤ stride_out)
    (hb : length = 0 ∨ (length - 1) * stride + 1 ≤ data.length)
    (hbi : length' = 0 ∨ (length' - 1) * stride_in + 1 ≤ data_in.length)
    (hbo : length' = 0 ∨ (length' - 1) * stride_out + 1 ≤ data_out.length) :
    (b.in_place data stride length).isSome = true ∧
    (b.out_of_place data_in stride_in data_out stride_out
        length').isSome = true := by
  constructor
  · apply in_place_go_total
    intro k hk hk'
    rcases hb with h0 | hle
    · omega
    · have hmul : k * stride ≤ (length - 1) * stride :=
        Nat.mul_le_mul_right stride (by omega)
      omega
  · apply out_of_place_go_total
    intro k hk hk'
    constructor
    · rcases hbi with h0 | hle
      · omega
      · have hmul : k * stride_in ≤ (length' - 1) * stride_in :=
          Nat.mul_le_mul_right stride_in (by omega)
        omega
    · rcases hbo with h0 | hle
      · omega
      · have hmul : k * stride_out ≤ (length' - 1) * stride_out :=
          Nat.mul_le_mul_right stride_out (by omega)
        omega

/-- Witness for C10: concrete in-place and out-of-place calls at the
exact boundary buffer sizes succeed. -/
theorem transform_accesses_in_bounds_witness :
    (1 : ℕ) ≤ 2 ∧ (1 : ℕ) ≤ 2 ∧ (1 : ℕ) ≤ 1 ∧
    ((2 : ℕ) = 0 ∨ (2 - 1) * 2 + 1 ≤
      ([⟨1, 0⟩, ⟨2, 0⟩, ⟨3, 0⟩] : List Cf).length) ∧
    ((2 : ℕ) = 0 ∨ (2 - 1) * 2 + 1 ≤
      ([⟨1, 0⟩, ⟨2, 0⟩, ⟨3, 0⟩] : List Cf).length) ∧
    ((2 : ℕ) = 0 ∨ (2 - 1) * 1 + 1 ≤
      ([⟨0, 0⟩, ⟨0, 0⟩] : List Cf).length) ∧
    (((Fft_1024.mk 2).in_place [⟨1, 0⟩, ⟨2, 0⟩, ⟨3, 0⟩] 2 2).isSome = true ∧
      ((Fft_1024.mk 2).out_of_place [⟨1, 0⟩, ⟨2, 0⟩, ⟨3, 0⟩] 2
          [⟨0, 0⟩, ⟨0, 0⟩] 1 2).isSome = true) :=
  ⟨by decide, by decide, by decide, by decide, by decide, by decide,
    transform_accesses_in_bounds (Fft_1024.mk 2)
      [⟨1, 0⟩, ⟨2, 0⟩, ⟨3, 0⟩] [⟨1, 0⟩, ⟨2, 0⟩, ⟨3, 0⟩]
      [⟨0, 0⟩, ⟨0, 0⟩] 2 2 1 2 2 (by decide) (by decide) (by decide)
      (by decide) (by decide) (by decide)⟩

end Vsipl
